import Mathlib

/-
Shallow embedding of the two exporter scripts of the tv repository:
src/tools/dump_journal.py and src/tools/dump_cargo.py.

Filesystem state (stamp files, parquet files) is passed explicitly; the
results of the two subprocess invocations (the fingerprint probe and the
full fetch) are inputs of the run functions; each run returns its exit
code, the final filesystem state, and the ordered list of externally
visible operations it performed (fetch, partition or snapshot writes,
stamp write).  A Python exception that the scripts do not catch is
modelled as exit code 1 with no further operations.
-/

namespace TV

/-- JSON values as produced by json.loads in the exporter scripts.
Numeric payloads the scripts consume are integers; floating point values
never reach a code path any claim touches, so they are not modelled. -/
inductive JVal : Type
  | jnull : JVal
  | jbool : Bool → JVal
  | jint : Int → JVal
  | jstr : String → JVal
  | jarr : List JVal → JVal
  | jobj : List (String × JVal) → JVal

/-- A parsed top-level JSON object (a Python dict): association list with
pairwise distinct keys, as json.loads produces. -/
abbrev JEntry := List (String × JVal)

/-- Association lookup, modelling Python dict access on a parsed object. -/
def lookupJ (e : JEntry) (k : String) : Option JVal :=
  match e with
  | [] => none
  | (k0, v) :: t => if k0 = k then some v else lookupJ t k

/-- Models e.get(k, d) on a dict. -/
def jgetD (e : JEntry) (k : String) (d : JVal) : JVal :=
  (lookupJ e k).getD d

/-- Accumulating decimal digit parser; fails on a non-digit. -/
def natOfDigitsAux : List Char → Nat → Option Nat
  | [], acc => some acc
  | c :: t, acc =>
    if c.isDigit then natOfDigitsAux t (acc * 10 + (c.toNat - 48)) else none

/-- Models Python int(s) on a str: surrounding whitespace stripped, an
optional sign, then decimal digits (the underscore grouping form never
occurs in the data the scripts read and is not modelled). -/
def pyStrToInt (s : String) : Option Int :=
  let cs := (((s.toList.dropWhile Char.isWhitespace).reverse.dropWhile
    Char.isWhitespace).reverse)
  match cs with
  | [] => none
  | '-' :: t => if t.isEmpty then none else (natOfDigitsAux t 0).map (fun n => -(n : Int))
  | '+' :: t => if t.isEmpty then none else (natOfDigitsAux t 0).map (fun n => (n : Int))
  | t => (natOfDigitsAux t 0).map (fun n => (n : Int))

/-- Models Python int(x): identity on ints, parse for strings (int raises
for other types, and for unparseable strings: result none). -/
def pyIntOf : JVal → Option Int
  | .jint n => some n
  | .jbool b => some (if b then 1 else 0)
  | .jstr s => pyStrToInt s
  | _ => none

/-- Models the slice v[:8] from dump_journal.py line 39: defined for
strings and lists, a TypeError (none) otherwise. -/
def pySlice8 : JVal → Option JVal
  | .jstr s => some (.jstr (s.take 8))
  | .jarr xs => some (.jarr (xs.take 8))
  | _ => none

/-- Models Python truthiness of a JSON value. -/
def pyTruthy : JVal → Bool
  | .jnull => false
  | .jbool b => b
  | .jint n => n != 0
  | .jstr s => !s.isEmpty
  | .jarr xs => !xs.isEmpty
  | .jobj f => !f.isEmpty

/-- Models v[0]: head for lists (IndexError on empty: none), first
character for strings, a TypeError (none) otherwise. -/
def pyIndex0 : JVal → Option JVal
  | .jarr xs => xs.head?
  | .jstr s => (s.toList.head?).map (fun c => .jstr c.toString)
  | _ => none

/-- Models Python len(v): defined for strings, lists and dicts. -/
def pyLen : JVal → Option Nat
  | .jstr s => some s.length
  | .jarr xs => some xs.length
  | .jobj f => some f.length
  | _ => none

/-- Models iteration over v in a for loop: list elements, string
characters, dict keys; a TypeError (none) otherwise. -/
def pyIter : JVal → Option (List JVal)
  | .jarr xs => some xs
  | .jstr s => some (s.toList.map (fun c => .jstr c.toString))
  | .jobj f => some (f.map (fun p => .jstr p.1))
  | _ => none

/-- Whether a JSON value is a string (isinstance(v, str)). -/
def JVal.isStr : JVal → Bool
  | .jstr _ => true
  | _ => false

/-- Civil calendar date (year, month, day) of a day count relative to
1970-01-01, the standard proleptic Gregorian conversion used by the C
library underneath datetime.fromtimestamp. -/
def civilFromDays (z0 : Int) : Int × Int × Int :=
  let z := z0 + 719468
  let era := z.fdiv 146097
  let doe := z - era * 146097
  let yoe := (doe - doe.fdiv 1460 + doe.fdiv 36524 - doe.fdiv 146096).fdiv 365
  let y := yoe + era * 400
  let doy := doe - (365 * yoe + yoe.fdiv 4 - yoe.fdiv 100)
  let mp := (5 * doy + 2).fdiv 153
  let d := doy - (153 * mp + 2).fdiv 5 + 1
  let m := mp + (if mp < 10 then 3 else -9)
  (y + (if m ≤ 2 then 1 else 0), m, d)

/-- Two-digit zero padded decimal, as strftime prints month, day, hour,
minute and second fields. -/
def pad2 (n : Int) : String :=
  if n < 10 then "0" ++ toString n else toString n

/-- Four-digit zero padded decimal for the year field. -/
def pad4 (n : Int) : String :=
  (if n < 10 then "000" else if n < 100 then "00" else if n < 1000 then "0" else "")
    ++ toString n

/-- Models datetime.fromtimestamp(ts).strftime of the date: the civil
date, in local time, of epoch second ts.  The local timezone is the
function tz giving the UTC offset in seconds at a given instant. -/
def localDateStr (tz : Int → Int) (ts : Int) : String :=
  let t := ts + tz ts
  let p := civilFromDays (t.fdiv 86400)
  pad4 p.1 ++ "-" ++ pad2 p.2.1 ++ "-" ++ pad2 p.2.2

/-- Models datetime.fromtimestamp(ts).strftime of the time of day. -/
def localTimeStr (tz : Int → Int) (ts : Int) : String :=
  let sod := (ts + tz ts).emod 86400
  pad2 (sod.fdiv 3600) ++ ":" ++ pad2 ((sod.emod 3600).fdiv 60) ++ ":" ++ pad2 (sod.emod 60)

/-- datetime.fromtimestamp raises for instants whose local civil time
falls outside year range 1..9999; inside the range it succeeds. -/
def fromtimestampOk (tz : Int → Int) (ts : Int) : Bool :=
  decide (-62135596800 ≤ ts + tz ts ∧ ts + tz ts ≤ 253402300799)

/-- One decoded journal row, in the tuple order of dump_journal.py line
43: (date, time, boot, unit, message).  The boot and unit components keep
the JSON value type because the script never coerces them to strings. -/
structure Row where
  date : String
  time : String
  boot : JVal
  unit : JVal
  msg : String

/-- The MESSAGE normalization of dump_journal.py line 40: the value when
present and a string, the empty string otherwise. -/
def msgOf (e : JEntry) : String :=
  match lookupJ e "MESSAGE" with
  | some (.jstr s) => s
  | _ => ""

/-- The per-entry decode of dump_journal.py lines 33-43.  A missing
timestamp field defaults to 0 via e.get; int() failure, an out of range
timestamp, or a non-sliceable boot id raise inside the try block, which
skips the entry (none). -/
def decodeEntry (tz : Int → Int) (e : JEntry) : Option Row :=
  match pyIntOf (jgetD e "__REALTIME_TIMESTAMP" (.jint 0)) with
  | none => none
  | some us =>
    let ts := us.fdiv 1000000
    if fromtimestampOk tz ts then
      match pySlice8 (jgetD e "_BOOT_ID" (.jstr "")) with
      | none => none
      | some boot =>
        some ⟨localDateStr tz ts, localTimeStr tz ts, boot,
              jgetD e "SYSLOG_IDENTIFIER" (.jstr ""), msgOf e⟩
    else none

/-- One line of the full journal dump output: empty (skipped before the
try block), not valid JSON or not a JSON object (json.loads or attribute
access raises, caught and skipped), or a parsed object. -/
inductive RawLine : Type
  | empty : RawLine
  | bad : RawLine
  | obj : JEntry → RawLine

/-- Decoding one line of the dump: only parsed objects can yield a row. -/
def decodeLine (tz : Int → Int) : RawLine → Option Row
  | .empty => none
  | .bad => none
  | .obj e => decodeEntry tz e

/-- All rows decoded from the dump, in order, faults skipped. -/
def decodeLines (tz : Int → Int) (lines : List RawLine) : List Row :=
  lines.filterMap (decodeLine tz)

/-- Appending one row under its key in the insertion ordered days dict. -/
def groupIns (m : List (String × List Row)) (k : String) (r : Row) :
    List (String × List Row) :=
  match m with
  | [] => [(k, [r])]
  | (k0, rs) :: t => if k0 = k then (k0, rs ++ [r]) :: t else (k0, rs) :: groupIns t k r

/-- The days dict of dump_journal.py lines 28-45: rows grouped by date,
keys in first-occurrence order, rows in input order. -/
def groupRows (recs : List Row) : List (String × List Row) :=
  recs.foldl (fun m r => groupIns m r.date r) []

/-- Lookup of an existing parquet partition file by its date key. -/
def lookupPart (m : List (String × List Row)) (k : String) : Option (List Row) :=
  match m with
  | [] => none
  | (k0, rs) :: t => if k0 = k then some rs else lookupPart t k

/-- Writing a partition file: full replacement of any prior content. -/
def setPart (m : List (String × List Row)) (k : String) (rs : List Row) :
    List (String × List Row) :=
  match m with
  | [] => [(k, rs)]
  | (k0, rs0) :: t => if k0 = k then (k0, rs) :: t else (k0, rs0) :: setPart t k rs

/-- Filesystem state of the journal exporter: the .stamp file content (if
the file exists) and the set of existing per-day parquet files. -/
structure JState where
  stamp : Option String
  parts : List (String × List Row)

/-- Externally visible operations of a journal run, in execution order. -/
inductive Op : Type
  | fetch : Op
  | writePart : String → List Row → Op
  | writeStamp : String → Op

/-- Result of one run: process exit code, final filesystem state, and the
ordered operation trace. -/
structure RunOut (σ : Type) (ω : Type) : Type where
  exit : Nat
  fs : σ
  ops : List ω

/-- The write loop of dump_journal.py lines 49-57: a partition is written
when its date equals today or its file does not exist yet. -/
def writeLoop (today : String) : JState → List (String × List Row) → JState × List Op
  | fs, [] => (fs, [])
  | fs, (d, rs) :: t =>
    if (d == today) || (lookupPart fs.parts d).isNone then
      let out := writeLoop today { fs with parts := setPart fs.parts d rs } t
      (out.1, .writePart d rs :: out.2)
    else
      writeLoop today fs t

/-- Outcome of the journalctl -n1 probe: the subprocess raises, stdout is
empty, stdout is nonempty but json.loads raises or yields a non-object,
or stdout parses to an object. -/
inductive ProbeResult : Type
  | fail : ProbeResult
  | malformed : ProbeResult
  | empty : ProbeResult
  | entry : JEntry → ProbeResult

/-- json.loads(cur).get of the cursor field with default empty string. -/
def cursorVal (e : JEntry) : JVal :=
  jgetD e "__CURSOR" (.jstr "")

/-- Python equality between a JSON value and a str: true only for an
equal string. -/
def pyEqStr (v : JVal) (s : String) : Bool :=
  match v with
  | .jstr t => t == s
  | _ => false

/-- The final stamp step of dump_journal.py lines 60-61, given the value
to persist (none when the probe output was empty, so the stamp is left
untouched): write_text succeeds on a string and raises a TypeError on
any other value. -/
def stampStep (fs1 : JState) (stampv : Option JVal) : RunOut JState Op :=
  match stampv with
  | none => ⟨0, fs1, []⟩
  | some (.jstr c) => ⟨0, { fs1 with stamp := some c }, [.writeStamp c]⟩
  | some _ => ⟨1, fs1, []⟩

/-- The body of a journal run past the cursor gate: full fetch, decode
and group, write loop, stamp step. -/
def runBody (fs : JState) (today : String) (tz : Int → Int)
    (full : Except Unit (List RawLine)) (stampv : Option JVal) : RunOut JState Op :=
  match full with
  | .error _ => ⟨1, fs, [.fetch]⟩
  | .ok lines =>
    let out := writeLoop today fs (groupRows (decodeLines tz lines))
    let st := stampStep out.1 stampv
    ⟨st.exit, st.fs, .fetch :: (out.2 ++ st.ops)⟩

/-- One run of dump_journal.py.  A failing or unparseable probe raises
before anything else happens; a nonempty probe whose cursor equals the
persisted stamp exits 0 immediately; otherwise the body runs, and the
cursor (when the probe was nonempty) is persisted last. -/
def journalRun (fs : JState) (today : String) (tz : Int → Int)
    (probe : ProbeResult) (full : Except Unit (List RawLine)) : RunOut JState Op :=
  match probe with
  | .fail => ⟨1, fs, []⟩
  | .malformed => ⟨1, fs, []⟩
  | .empty => runBody fs today tz full none
  | .entry e =>
    if pyEqStr (cursorVal e) (fs.stamp.getD "") then ⟨0, fs, []⟩
    else runBody fs today tz full (some (cursorVal e))

/-- Whether the run proceeds past the cursor gate to the full fetch. -/
def proceedsB (probe : ProbeResult) (last : String) : Bool :=
  match probe with
  | .empty => true
  | .entry e => !(pyEqStr (cursorVal e) last)
  | _ => false

/-- The cursor value the run will persist, when the probe was nonempty. -/
def stampvOf (probe : ProbeResult) : Option JVal :=
  match probe with
  | .entry e => some (cursorVal e)
  | _ => none

/-- One exported dependency row in the tuple order of dump_cargo.py line
34: (name, version, dependency count, kind).  Name, version and kind keep
the JSON value type because the script never coerces them. -/
structure CRow where
  name : JVal
  version : JVal
  deps : Nat
  kind : JVal

/-- Models pkg.get(k, d) where pkg is an arbitrary JSON value: attribute
access raises (none) unless the value is a dict. -/
def jget (v : JVal) (k : String) (d : JVal) : Option JVal :=
  match v with
  | .jobj f => some (jgetD f k d)
  | _ => none

/-- The row projection of dump_cargo.py lines 28-34 for one package.
Every step can raise: .get on a non-dict, len on an unsized value,
indexing an empty kind list (the IndexError of line 33).  A raise (none)
aborts the whole run, unlike the journal decoder. -/
def projectPkg (pkg : JVal) : Option CRow := do
  let name ← jget pkg "name" (.jstr "")
  let ver ← jget pkg "version" (.jstr "")
  let depsv ← jget pkg "dependencies" (.jarr [])
  let deps ← pyLen depsv
  let targets ← jget pkg "targets" (.jarr [])
  let kind ←
    if pyTruthy targets then do
      let t0 ← pyIndex0 targets
      let kv ← jget t0 "kind" (.jarr [.jstr ""])
      pyIndex0 kv
    else
      pure (.jstr "")
  pure ⟨name, ver, deps, kind⟩

/-- Projecting the whole package list; any single raise aborts the run
with nothing written. -/
def projectAll : List JVal → Option (List CRow)
  | [] => some []
  | p :: t =>
    match projectPkg p, projectAll t with
    | some r, some rs => some (r :: rs)
    | _, _ => none

/-- Filesystem state of the cargo exporter: Cargo.lock bytes when the
file exists, the .cargo_stamp content when it exists, and the
cargo.parquet content when it exists. -/
structure CState where
  lock : Option (List Nat)
  stamp : Option String
  out : Option (List CRow)

/-- Externally visible operations of a cargo run, in execution order. -/
inductive COp : Type
  | fetch : COp
  | writeOut : List CRow → COp
  | writeStamp : String → COp

/-- Outcome of the cargo metadata fetch: the subprocess raises, its
stdout does not parse as JSON, or it parses to a JSON value. -/
inductive CargoFetch : Type
  | fail : CargoFetch
  | badJson : CargoFetch
  | doc : JVal → CargoFetch

/-- One run of dump_cargo.py.  A missing Cargo.lock exits 0 at once; the
md5 of its bytes (the abstract digest function md5hex is a run input)
gated against the stamp and the output existence decides whether the
fetch happens; the snapshot write replaces the output file and the stamp
write is last. -/
def cargoRun (fs : CState) (md5hex : List Nat → String) (fetch : CargoFetch) :
    RunOut CState COp :=
  match fs.lock with
  | none => ⟨0, fs, []⟩
  | some bytes =>
    let cur := md5hex bytes
    if (cur == fs.stamp.getD "") && fs.out.isSome then ⟨0, fs, []⟩
    else
      match fetch with
      | .fail => ⟨1, fs, [.fetch]⟩
      | .badJson => ⟨1, fs, [.fetch]⟩
      | .doc meta =>
        match jget meta "packages" (.jarr []) with
        | none => ⟨1, fs, [.fetch]⟩
        | some pkgsv =>
          match pyIter pkgsv with
          | none => ⟨1, fs, [.fetch]⟩
          | some pkgs =>
            match projectAll pkgs with
            | none => ⟨1, fs, [.fetch]⟩
            | some rows =>
              ⟨0, { fs with out := some rows, stamp := some cur },
                [.fetch, .writeOut rows, .writeStamp cur]⟩

/-- All rows of the decoded batch whose lines decode at all carry the
partition key k (Bool form so concrete instances evaluate by rfl). -/
def sameKeyB (tz : Int → Int) (k : String) (lines : List RawLine) : Bool :=
  lines.all (fun l =>
    match decodeLine tz l with
    | some r => r.date == k
    | none => true)

/-- The rows of the partition stored under key k (empty when absent). -/
def partRows (m : List (String × List Row)) (k : String) : List Row :=
  (lookupPart m k).getD []

theorem lookupJ_cons_self (k : String) (v : JVal) (e : JEntry) :
    lookupJ ((k, v) :: e) k = some v := by
  simp [lookupJ]

theorem lookupJ_cons_ne (k0 k : String) (v : JVal) (e : JEntry) (h : k0 ≠ k) :
    lookupJ ((k0, v) :: e) k = lookupJ e k := by
  simp [lookupJ, h]

theorem setPart_lookup_self (m : List (String × List Row)) (k : String) (rs : List Row) :
    lookupPart (setPart m k rs) k = some rs := by
  induction m with
  | nil => simp [setPart, lookupPart]
  | cons p t ih =>
    obtain ⟨k0, rs0⟩ := p
    by_cases h : k0 = k
    · simp [setPart, lookupPart, h]
    · simp [setPart, lookupPart, h, ih]

theorem setPart_lookup_ne (m : List (String × List Row)) (k d : String) (rs : List Row)
    (h : k ≠ d) : lookupPart (setPart m k rs) d = lookupPart m d := by
  induction m with
  | nil => simp [setPart, lookupPart, h]
  | cons p t ih =>
    obtain ⟨k0, rs0⟩ := p
    by_cases h0 : k0 = k
    · subst h0
      simp [setPart, lookupPart, h]
    · by_cases h1 : k0 = d
      · subst h1
        simp [setPart, lookupPart, h0]
      · simp [setPart, lookupPart, h0, h1, ih]

theorem writeLoop_ops_part (today : String) (days : List (String × List Row)) :
    ∀ fs : JState, ∀ op ∈ (writeLoop today fs days).2, ∃ d rs, op = Op.writePart d rs := by
  induction days with
  | nil => intro fs op hop; simp [writeLoop] at hop
  | cons p t ih =>
    intro fs op hop
    obtain ⟨d, rs⟩ := p
    by_cases h : ((d == today) || (lookupPart fs.parts d).isNone) = true
    · simp only [writeLoop, h, if_true, List.mem_cons] at hop
      rcases hop with h1 | h1
      · exact ⟨d, rs, h1⟩
      · exact ih _ op h1
    · simp only [writeLoop, h, if_false, Bool.false_eq_true] at hop
      exact ih _ op hop

theorem writeLoop_parts_stable (today : String) (days : List (String × List Row))
    (d : String) (hd : d ∉ days.map Prod.fst) :
    ∀ fs : JState, lookupPart (writeLoop today fs days).1.parts d = lookupPart fs.parts d := by
  induction days with
  | nil => intro fs; simp [writeLoop]
  | cons p t ih =>
    intro fs
    obtain ⟨d0, rs0⟩ := p
    simp only [List.map_cons, List.mem_cons, not_or] at hd
    obtain ⟨hne, ht⟩ := hd
    by_cases h : ((d0 == today) || (lookupPart fs.parts d0).isNone) = true
    · simp only [writeLoop, h, if_true]
      rw [ih ht]
      exact setPart_lookup_ne _ _ _ _ (fun he => hne he.symm)
    · simp only [writeLoop, h, if_false, Bool.false_eq_true]
      exact ih ht _

theorem writeLoop_ops_stable (today : String) (days : List (String × List Row))
    (d : String) (hd : d ∉ days.map Prod.fst) :
    ∀ fs : JState, ∀ rs, Op.writePart d rs ∉ (writeLoop today fs days).2 := by
  induction days with
  | nil => intro fs rs h; simp [writeLoop] at h
  | cons p t ih =>
    intro fs rs hmem
    obtain ⟨d0, rs0⟩ := p
    simp only [List.map_cons, List.mem_cons, not_or] at hd
    obtain ⟨hne, ht⟩ := hd
    by_cases h : ((d0 == today) || (lookupPart fs.parts d0).isNone) = true
    · simp only [writeLoop, h, if_true, List.mem_cons] at hmem
      rcases hmem with h1 | h1
      · simp only [Op.writePart.injEq] at h1
        exact hne h1.1
      · exact ih ht _ rs h1
    · simp only [writeLoop, h, if_false, Bool.false_eq_true] at hmem
      exact ih ht _ rs hmem

/-- The partition policy of the write loop: an entry keyed today is
always written, an entry keyed otherwise is written exactly when its
file is missing, and an existing file for a non-today key is untouched. -/
theorem writeLoop_spec (today : String) (days : List (String × List Row))
    (hnd : (days.map Prod.fst).Nodup) (d : String) (rs : List Row)
    (hmem : (d, rs) ∈ days) :
    ∀ fs : JState,
      ((d = today →
         lookupPart (writeLoop today fs days).1.parts d = some rs ∧
         Op.writePart d rs ∈ (writeLoop today fs days).2)
      ∧ (d ≠ today → lookupPart fs.parts d = none →
         lookupPart (writeLoop today fs days).1.parts d = some rs ∧
         Op.writePart d rs ∈ (writeLoop today fs days).2)
      ∧ (d ≠ today → ∀ old, lookupPart fs.parts d = some old →
         lookupPart (writeLoop today fs days).1.parts d = some old ∧
         ∀ rs2, Op.writePart d rs2 ∉ (writeLoop today fs days).2)) := by
  induction days with
  | nil => simp at hmem
  | cons p t ih =>
    intro fs
    obtain ⟨d0, rs0⟩ := p
    simp only [List.map_cons, List.nodup_cons] at hnd
    obtain ⟨hd0, hndt⟩ := hnd
    rcases List.mem_cons.mp hmem with heq | hmemt
    · injection heq with hd hrs
      subst hd; subst hrs
      by_cases h : ((d == today) || (lookupPart fs.parts d).isNone) = true
      · simp only [writeLoop, h, if_true]
        have hstable := writeLoop_parts_stable today t d hd0
          { fs with parts := setPart fs.parts d rs }
        have hself : lookupPart (setPart fs.parts d rs) d = some rs :=
          setPart_lookup_self _ _ _
        refine ⟨fun _ => ⟨by rw [hstable]; exact hself, List.mem_cons_self _ _⟩,
                fun _ _ => ⟨by rw [hstable]; exact hself, List.mem_cons_self _ _⟩,
                fun hne old hold => absurd h ?_⟩
        simp only [Bool.or_eq_true, beq_iff_eq, Option.isNone_iff_eq_none, hold]
        push_neg
        exact ⟨hne, by simp⟩
      · have hcond := h
        simp only [Bool.or_eq_true, beq_iff_eq, Option.isNone_iff_eq_none, not_or] at hcond
        obtain ⟨hne, hsome⟩ := hcond
        simp only [writeLoop, h, if_false, Bool.false_eq_true]
        refine ⟨fun hc => absurd hc hne, fun _ hc => absurd hc hsome, fun _ old hold => ?_⟩
        refine ⟨?_, fun rs2 => writeLoop_ops_stable today t d hd0 fs rs2⟩
        rw [writeLoop_parts_stable today t d hd0 fs]
        exact hold
    · have hdkey : d ∈ t.map Prod.fst := List.mem_map_of_mem Prod.fst hmemt
      have hne0 : d0 ≠ d := fun he => hd0 (he ▸ hdkey)
      by_cases h : ((d0 == today) || (lookupPart fs.parts d0).isNone) = true
      · simp only [writeLoop, h, if_true]
        have hlk : lookupPart (setPart fs.parts d0 rs0) d = lookupPart fs.parts d :=
          setPart_lookup_ne _ _ _ _ hne0
        have := ih hndt hmemt { fs with parts := setPart fs.parts d0 rs0 }
        simp only [hlk] at this
        obtain ⟨c1, c2, c3⟩ := this
        refine ⟨fun hc => ⟨(c1 hc).1, List.mem_cons_of_mem _ (c1 hc).2⟩,
                fun hc hn => ⟨(c2 hc hn).1, List.mem_cons_of_mem _ (c2 hc hn).2⟩,
                fun hc old hold => ⟨(c3 hc old hold).1, fun rs2 hin => ?_⟩⟩
        rcases List.mem_cons.mp hin with h1 | h1
        · simp only [Op.writePart.injEq] at h1
          exact hne0 h1.1.symm
        · exact (c3 hc old hold).2 rs2 h1
      · simp only [writeLoop, h, if_false, Bool.false_eq_true]
        exact ih hndt hmemt fs

theorem groupIns_keys (k : String) (r : Row) :
    ∀ m : List (String × List Row),
      (groupIns m k r).map Prod.fst =
        if k ∈ m.map Prod.fst then m.map Prod.fst else m.map Prod.fst ++ [k] := by
  intro m
  induction m with
  | nil => simp [groupIns]
  | cons p t ih =>
    obtain ⟨k0, rs⟩ := p
    by_cases h : k0 = k
    · subst h
      simp [groupIns]
    · have hne : ¬ k = k0 := fun he => h he.symm
      by_cases hk : k ∈ t.map Prod.fst
      · simp [groupIns, h, hne, hk, ih]
      · simp [groupIns, h, hne, hk, ih]

theorem groupIns_nodup (k : String) (r : Row) (m : List (String × List Row))
    (h : (m.map Prod.fst).Nodup) : ((groupIns m k r).map Prod.fst).Nodup := by
  rw [groupIns_keys]
  by_cases hk : k ∈ m.map Prod.fst
  · simpa [hk] using h
  · simp only [hk, if_false]
    simp [List.nodup_append, h, hk]

theorem groupRows_fold_nodup :
    ∀ (recs : List Row) (m : List (String × List Row)),
      (m.map Prod.fst).Nodup →
      (((recs.foldl (fun m2 r => groupIns m2 r.date r) m)).map Prod.fst).Nodup := by
  intro recs
  induction recs with
  | nil => intro m h; simpa using h
  | cons r t ih =>
    intro m h
    exact ih _ (groupIns_nodup r.date r m h)

theorem groupRows_nodup (recs : List Row) : ((groupRows recs).map Prod.fst).Nodup :=
  groupRows_fold_nodup recs [] (by simp)

theorem groupRows_fold_const (k : String) :
    ∀ (recs : List Row) (rs : List Row), (∀ r ∈ recs, r.date = k) →
      recs.foldl (fun m2 r => groupIns m2 r.date r) [(k, rs)] = [(k, rs ++ recs)] := by
  intro recs
  induction recs with
  | nil => intro rs _; simp
  | cons r t ih =>
    intro rs hall
    have hr : r.date = k := hall r (List.mem_cons_self _ _)
    have ht : ∀ r2 ∈ t, r2.date = k := fun r2 h2 => hall r2 (List.mem_cons_of_mem _ h2)
    simp only [List.foldl_cons, hr, groupIns, eq_self_iff_true, if_true]
    rw [ih (rs ++ [r]) ht]
    simp

theorem groupRows_const (k : String) (recs : List Row) (hall : ∀ r ∈ recs, r.date = k) :
    groupRows recs = if recs.isEmpty then [] else [(k, recs)] := by
  cases recs with
  | nil => simp [groupRows]
  | cons r t =>
    have hr : r.date = k := hall r (List.mem_cons_self _ _)
    have ht : ∀ r2 ∈ t, r2.date = k := fun r2 h2 => hall r2 (List.mem_cons_of_mem _ h2)
    simp only [groupRows, List.foldl_cons, groupIns, List.isEmpty_cons, if_false,
      Bool.false_eq_true]
    rw [hr, groupRows_fold_const k t [r] ht]
    simp

theorem length_filterMap_countP {α β : Type} (f : α → Option β) :
    ∀ l : List α, (l.filterMap f).length = l.countP (fun a => (f a).isSome) := by
  intro l
  induction l with
  | nil => simp
  | cons a t ih =>
    cases h : f a with
    | none => simp [List.filterMap_cons, h, List.countP_cons, ih]
    | some b => simp [List.filterMap_cons, h, List.countP_cons, ih]

theorem stampStep_parts (fs1 : JState) (v : Option JVal) :
    (stampStep fs1 v).fs.parts = fs1.parts := by
  rcases v with _ | w
  · rfl
  · cases w <;> rfl

theorem stampStep_mem (fs1 : JState) (v : Option JVal) (op : Op)
    (h : op ∈ (stampStep fs1 v).ops) :
    ∃ c, op = Op.writeStamp c ∧
      stampStep fs1 v = ⟨0, { fs1 with stamp := some c }, [Op.writeStamp c]⟩ := by
  rcases v with _ | w
  · simp [stampStep] at h
  · cases w with
    | jstr c =>
      simp only [stampStep, List.mem_singleton] at h
      exact ⟨c, h, rfl⟩
    | jnull => simp [stampStep] at h
    | jbool b => simp [stampStep] at h
    | jint n => simp [stampStep] at h
    | jarr xs => simp [stampStep] at h
    | jobj f => simp [stampStep] at h

theorem journalRun_proceeds (fs : JState) (today : String) (tz : Int → Int)
    (probe : ProbeResult) (full : Except Unit (List RawLine))
    (h : proceedsB probe (fs.stamp.getD "") = true) :
    journalRun fs today tz probe full = runBody fs today tz full (stampvOf probe) := by
  cases probe with
  | fail => simp [proceedsB] at h
  | malformed => simp [proceedsB] at h
  | empty => rfl
  | entry e =>
    simp only [proceedsB, Bool.not_eq_true'] at h
    simp [journalRun, stampvOf, h]

/-- Claim C8: when the Cargo.lock descriptor is absent the dependency
exporter is a clean, silent no-op: exit code 0, no fetch, no output
write, and the stamp untouched (the run returns the state unchanged with
an empty operation trace). -/
theorem c8_missing_lock_noop (stamp : Option String) (out : Option (List CRow))
    (md5hex : List Nat → String) (fetch : CargoFetch) :
    cargoRun ⟨none, stamp, out⟩ md5hex fetch = ⟨0, ⟨none, stamp, out⟩, []⟩ := rfl

/-- Claim C10: a structurally valid dependency document containing a
package whose first target binds kind to an empty list makes the row
projection raise (the IndexError of dump_cargo.py line 33, modelled as
none), aborting the whole run with nothing written: exit 1, state
unchanged, only the fetch in the trace. -/
theorem c10_empty_kind_aborts :
    projectPkg (.jobj [("name", .jstr "a"), ("version", .jstr "1.0"),
        ("dependencies", .jarr []), ("targets", .jarr [.jobj [("kind", .jarr [])]])]) = none
    ∧ cargoRun ⟨some [0], none, none⟩ (fun _ => "h1")
        (.doc (.jobj [("packages", .jarr [.jobj [("name", .jstr "a"),
          ("version", .jstr "1.0"), ("dependencies", .jarr []),
          ("targets", .jarr [.jobj [("kind", .jarr [])]])]])])) =
      ⟨1, ⟨some [0], none, none⟩, [COp.fetch]⟩ := ⟨rfl, rfl⟩

/-- Claim C7: each package is projected to exactly one row holding its
name, version string, dependency count and the first declared kind of
its first target (empty string when there is no target); lists of
successfully projected packages give one row per package; and the
document with package a, version 1.0, two dependencies and one lib
target exports the row (a, 1.0, 2, lib). -/
theorem c7_snapshot_fidelity :
    (∀ (n v : String) (ds : List JVal) (k : String) (ks rest : List JVal),
      projectPkg (.jobj [("name", .jstr n), ("version", .jstr v),
          ("dependencies", .jarr ds),
          ("targets", .jarr (.jobj [("kind", .jarr (.jstr k :: ks))] :: rest))]) =
        some ⟨.jstr n, .jstr v, ds.length, .jstr k⟩)
    ∧ (∀ (n v : String) (ds : List JVal),
      projectPkg (.jobj [("name", .jstr n), ("version", .jstr v),
          ("dependencies", .jarr ds), ("targets", .jarr [])]) =
        some ⟨.jstr n, .jstr v, ds.length, .jstr ""⟩)
    ∧ (∀ (pkgs : List JVal) (rows : List CRow), projectAll pkgs = some rows →
        rows.length = pkgs.length)
    ∧ (cargoRun ⟨some [0], none, none⟩ (fun _ => "h0")
        (.doc (.jobj [("packages", .jarr [.jobj [("name", .jstr "a"),
          ("version", .jstr "1.0"),
          ("dependencies", .jarr [.jobj [("name", .jstr "x")], .jobj [("name", .jstr "y")]]),
          ("targets", .jarr [.jobj [("kind", .jarr [.jstr "lib"])]])]])]))).fs.out =
      some [⟨.jstr "a", .jstr "1.0", 2, .jstr "lib"⟩] := by
  refine ⟨fun n v ds k ks rest => rfl, fun n v ds => rfl, ?_, rfl⟩
  intro pkgs
  induction pkgs with
  | nil =>
    intro rows h
    simp only [projectAll, Option.some.injEq] at h
    rw [← h]
    rfl
  | cons p t ih =>
    intro rows h
    simp only [projectAll] at h
    cases hp : projectPkg p with
    | none => rw [hp] at h; simp at h
    | some r =>
      cases ht : projectAll t with
      | none => rw [hp, ht] at h; simp at h
      | some rs =>
        rw [hp, ht] at h
        simp only [Option.some.injEq] at h
        rw [← h]
        simp [ih rs ht]

/-- Claim C7 witness: applying the row-count conjunct at the concrete
one-package document of the fidelity instance. -/
theorem c7_snapshot_fidelity_witness :
    ([(⟨.jstr "a", .jstr "1.0", 2, .jstr "lib"⟩ : CRow)]).length =
      ([JVal.jobj [("name", .jstr "a"), ("version", .jstr "1.0"),
        ("dependencies", .jarr [.jobj [("name", .jstr "x")], .jobj [("name", .jstr "y")]]),
        ("targets", .jarr [.jobj [("kind", .jarr [.jstr "lib"])]])]]).length :=
  c7_snapshot_fidelity.2.2.1 _ _ rfl

/-- Claim C2 counterexample: for the journal exporter with persisted
stamp c, a probe whose cursor is also c, and no output file at all
(parts empty), the run exits 0 with an empty trace: no fetch happens
even though the output does not exist, refuting the claimed
re-export-on-deleted-output behaviour for this exporter. -/
theorem c2_gating_counterexample :
    (journalRun ⟨some "c", []⟩ "2024-06-01" (fun _ => 0)
        (ProbeResult.entry [("__CURSOR", JVal.jstr "c")]) (Except.ok [])).ops = []
    ∧ (journalRun ⟨some "c", []⟩ "2024-06-01" (fun _ => 0)
        (ProbeResult.entry [("__CURSOR", JVal.jstr "c")]) (Except.ok [])).exit = 0 :=
  ⟨rfl, rfl⟩

/-- Claim C2 as amended: the cargo exporter fetches exactly when its
fingerprint differs from the persisted one or the output is missing;
the journal exporter fetches exactly when the probe cursor differs from
the persisted stamp, ignoring output existence; and an empty probe
always leads to a fetch. -/
theorem c2_gating_amended :
    (∀ (bytes : List Nat) (stamp : Option String) (out : Option (List CRow))
        (md5hex : List Nat → String) (fetch : CargoFetch),
      COp.fetch ∈ (cargoRun ⟨some bytes, stamp, out⟩ md5hex fetch).ops ↔
        (md5hex bytes ≠ stamp.getD "" ∨ out = none))
    ∧ (∀ (fs : JState) (today : String) (tz : Int → Int) (e : JEntry)
        (full : Except Unit (List RawLine)),
      Op.fetch ∈ (journalRun fs today tz (ProbeResult.entry e) full).ops ↔
        pyEqStr (cursorVal e) (fs.stamp.getD "") = false)
    ∧ (∀ (fs : JState) (today : String) (tz : Int → Int)
        (full : Except Unit (List RawLine)),
      Op.fetch ∈ (journalRun fs today tz ProbeResult.empty full).ops) := by
  refine ⟨?_, ?_, ?_⟩
  · intro bytes stamp out md5hex fetch
    by_cases hgate : ((md5hex bytes == stamp.getD "") && out.isSome) = true
    · rw [Bool.and_eq_true, beq_iff_eq, Option.isSome_iff_exists] at hgate
      obtain ⟨h1, w, h2⟩ := hgate
      simp [cargoRun, h1, h2]
    · have hsplit := hgate
      rw [Bool.and_eq_true, beq_iff_eq] at hsplit
      push_neg at hsplit
      constructor
      · intro _
        by_cases h1 : md5hex bytes = stamp.getD ""
        · exact Or.inr (Option.not_isSome_iff_eq_none.mp
            (by simpa using hsplit h1))
        · exact Or.inl h1
      · intro _
        cases fetch with
        | fail => simp [cargoRun, hgate]
        | badJson => simp [cargoRun, hgate]
        | doc meta =>
          simp only [cargoRun, hgate, if_false, Bool.false_eq_true]
          cases hj : jget meta "packages" (.jarr []) with
          | none => simp [hj]
          | some pkgsv =>
            cases hi : pyIter pkgsv with
            | none => simp [hj, hi]
            | some pkgs =>
              cases hpa : projectAll pkgs with
              | none => simp [hj, hi, hpa]
              | some rows => simp [hj, hi, hpa]
  · intro fs today tz e full
    by_cases hc : pyEqStr (cursorVal e) (fs.stamp.getD "") = true
    · simp [journalRun, hc]
    · rw [Bool.not_eq_true] at hc
      cases full with
      | error u => simp [journalRun, runBody, hc]
      | ok lines => simp [journalRun, runBody, hc]
  · intro fs today tz full
    cases full with
    | error u => simp [journalRun, runBody]
    | ok lines => simp [journalRun, runBody]

/-- Claim C4: in a batch whose decodable lines all carry partition key
k, every malformed line is skipped silently, the partition stored under
k holds exactly the decoded rows, and the row count equals the number of
well-formed lines; no malformed line aborts the batch (decoding is a
total function of the batch). -/
theorem c4_fault_isolation (tz : Int → Int) (k : String) (lines : List RawLine)
    (h : sameKeyB tz k lines = true) :
    partRows (groupRows (decodeLines tz lines)) k = decodeLines tz lines
    ∧ (decodeLines tz lines).length =
        lines.countP (fun l => (decodeLine tz l).isSome) := by
  have hall : ∀ r ∈ decodeLines tz lines, r.date = k := by
    intro r hr
    obtain ⟨l, hl, hfl⟩ := List.mem_filterMap.mp hr
    have hp := List.all_eq_true.mp h l hl
    rw [hfl] at hp
    exact beq_iff_eq.mp hp
  refine ⟨?_, length_filterMap_countP _ _⟩
  simp only [partRows]
  rw [groupRows_const k _ hall]
  cases hrec : decodeLines tz lines with
  | nil => simp [lookupPart]
  | cons r t => simp [lookupPart]

/-- Claim C4 witness: a batch of two well-formed and one malformed line,
all keyed 1970-01-01 under the zero timezone. -/
theorem c4_fault_isolation_witness :
    partRows (groupRows (decodeLines (fun _ => 0)
        [RawLine.obj [("__REALTIME_TIMESTAMP", JVal.jint 0)], RawLine.bad,
         RawLine.obj [("__REALTIME_TIMESTAMP", JVal.jstr "5")]])) "1970-01-01" =
      decodeLines (fun _ => 0)
        [RawLine.obj [("__REALTIME_TIMESTAMP", JVal.jint 0)], RawLine.bad,
         RawLine.obj [("__REALTIME_TIMESTAMP", JVal.jstr "5")]]
    ∧ (decodeLines (fun _ => 0)
        [RawLine.obj [("__REALTIME_TIMESTAMP", JVal.jint 0)], RawLine.bad,
         RawLine.obj [("__REALTIME_TIMESTAMP", JVal.jstr "5")]]).length =
      ([RawLine.obj [("__REALTIME_TIMESTAMP", JVal.jint 0)], RawLine.bad,
        RawLine.obj [("__REALTIME_TIMESTAMP", JVal.jstr "5")]]).countP
          (fun l => (decodeLine (fun _ => 0) l).isSome) :=
  c4_fault_isolation (fun _ => 0) "1970-01-01" _ rfl

/-- Claim C5 counterexample: an entry with no timestamp field is not
skipped, against the claim: e.get defaults the microsecond value to 0
and the empty object decodes, under the zero timezone, to a row dated
at the epoch date. -/
theorem c5_missing_ts_counterexample :
    lookupJ [] "__REALTIME_TIMESTAMP" = none
    ∧ decodeEntry (fun _ => 0) [] =
        some ⟨"1970-01-01", "00:00:00", JVal.jstr "", JVal.jstr "", ""⟩ := ⟨rfl, rfl⟩

/-- Claim C5 as amended: a missing timestamp field is treated as the
microsecond value 0 (decoding the entry exactly as if the field were
present with value 0), and whenever an entry decodes to a row, its
partition key is the calendar date, in local time, of the microsecond
timestamp floor-divided to seconds (and its time of day likewise). -/
theorem c5_timestamp_decode_amended (tz : Int → Int) (e : JEntry) :
    (lookupJ e "__REALTIME_TIMESTAMP" = none →
      decodeEntry tz e = decodeEntry tz (("__REALTIME_TIMESTAMP", JVal.jint 0) :: e))
    ∧ (∀ (us : Int) (r : Row),
        pyIntOf (jgetD e "__REALTIME_TIMESTAMP" (JVal.jint 0)) = some us →
        decodeEntry tz e = some r →
        r.date = localDateStr tz (us.fdiv 1000000) ∧
        r.time = localTimeStr tz (us.fdiv 1000000)) := by
  constructor
  · intro h
    have h0 : jgetD e "__REALTIME_TIMESTAMP" (JVal.jint 0) = JVal.jint 0 := by
      simp [jgetD, h]
    have h1 : jgetD (("__REALTIME_TIMESTAMP", JVal.jint 0) :: e) "__REALTIME_TIMESTAMP"
        (JVal.jint 0) = JVal.jint 0 := by
      simp [jgetD, lookupJ_cons_self]
    have hb : jgetD (("__REALTIME_TIMESTAMP", JVal.jint 0) :: e) "_BOOT_ID"
        (JVal.jstr "") = jgetD e "_BOOT_ID" (JVal.jstr "") := by
      unfold jgetD
      rw [lookupJ_cons_ne _ _ _ _ (by decide)]
    have hs : jgetD (("__REALTIME_TIMESTAMP", JVal.jint 0) :: e) "SYSLOG_IDENTIFIER"
        (JVal.jstr "") = jgetD e "SYSLOG_IDENTIFIER" (JVal.jstr "") := by
      unfold jgetD
      rw [lookupJ_cons_ne _ _ _ _ (by decide)]
    have hm : msgOf (("__REALTIME_TIMESTAMP", JVal.jint 0) :: e) = msgOf e := by
      unfold msgOf
      rw [lookupJ_cons_ne _ _ _ _ (by decide)]
    simp only [decodeEntry, h0, h1, hb, hs, hm]
  · intro us r hus hdec
    simp only [decodeEntry, hus] at hdec
    by_cases hok : fromtimestampOk tz (us.fdiv 1000000) = true
    · rw [if_pos hok] at hdec
      cases hsl : pySlice8 (jgetD e "_BOOT_ID" (JVal.jstr "")) with
      | none => rw [hsl] at hdec; simp at hdec
      | some boot =>
        rw [hsl] at hdec
        simp only [Option.some.injEq] at hdec
        rw [← hdec]
        exact ⟨rfl, rfl⟩
    · rw [if_neg hok] at hdec
      simp at hdec

/-- Claim C5 witness: the missing-field conjunct applied to an entry
with only a message, and the date-derivation conjunct applied to the
entry whose timestamp is one second past the epoch. -/
theorem c5_timestamp_decode_witness :
    (decodeEntry (fun _ => 0) [("MESSAGE", JVal.jstr "m")] =
      decodeEntry (fun _ => 0)
        [("__REALTIME_TIMESTAMP", JVal.jint 0), ("MESSAGE", JVal.jstr "m")])
    ∧ ((⟨"1970-01-01", "00:00:01", JVal.jstr "", JVal.jstr "", ""⟩ : Row).date =
        localDateStr (fun _ => 0) ((1000000 : Int).fdiv 1000000) ∧
       (⟨"1970-01-01", "00:00:01", JVal.jstr "", JVal.jstr "", ""⟩ : Row).time =
        localTimeStr (fun _ => 0) ((1000000 : Int).fdiv 1000000)) :=
  ⟨(c5_timestamp_decode_amended (fun _ => 0) [("MESSAGE", JVal.jstr "m")]).1 rfl,
   (c5_timestamp_decode_amended (fun _ => 0)
      [("__REALTIME_TIMESTAMP", JVal.jint 1000000)]).2 1000000 _ rfl rfl⟩

/-- Claim C9: a journal entry whose MESSAGE field is present but not a
string is not skipped: its message text is normalized to the empty
string (first conjunct, for arbitrary entries) and all other fields are
decoded normally (second conjunct, for an entry carrying the four
consumed fields with arbitrary values). -/
theorem c9_nonstring_message (tz : Int → Int) :
    (∀ (e : JEntry) (v : JVal), lookupJ e "MESSAGE" = some v → v.isStr = false →
      msgOf e = "")
    ∧ (∀ (usv bootv unitv v : JVal) (us : Int) (boot : JVal),
        v.isStr = false →
        pyIntOf usv = some us →
        fromtimestampOk tz (us.fdiv 1000000) = true →
        pySlice8 bootv = some boot →
        decodeEntry tz [("__REALTIME_TIMESTAMP", usv), ("_BOOT_ID", bootv),
            ("SYSLOG_IDENTIFIER", unitv), ("MESSAGE", v)] =
          some ⟨localDateStr tz (us.fdiv 1000000), localTimeStr tz (us.fdiv 1000000),
                boot, unitv, ""⟩) := by
  constructor
  · intro e v hl hv
    unfold msgOf
    rw [hl]
    cases v <;> simp_all [JVal.isStr]
  · intro usv bootv unitv v us boot hv hus hok hsl
    have hts : jgetD [("__REALTIME_TIMESTAMP", usv), ("_BOOT_ID", bootv),
        ("SYSLOG_IDENTIFIER", unitv), ("MESSAGE", v)] "__REALTIME_TIMESTAMP"
        (JVal.jint 0) = usv := rfl
    have hbv : jgetD [("__REALTIME_TIMESTAMP", usv), ("_BOOT_ID", bootv),
        ("SYSLOG_IDENTIFIER", unitv), ("MESSAGE", v)] "_BOOT_ID"
        (JVal.jstr "") = bootv := rfl
    have huv : jgetD [("__REALTIME_TIMESTAMP", usv), ("_BOOT_ID", bootv),
        ("SYSLOG_IDENTIFIER", unitv), ("MESSAGE", v)] "SYSLOG_IDENTIFIER"
        (JVal.jstr "") = unitv := rfl
    have hlm : lookupJ [("__REALTIME_TIMESTAMP", usv), ("_BOOT_ID", bootv),
        ("SYSLOG_IDENTIFIER", unitv), ("MESSAGE", v)] "MESSAGE" = some v := rfl
    have hm : msgOf [("__REALTIME_TIMESTAMP", usv), ("_BOOT_ID", bootv),
        ("SYSLOG_IDENTIFIER", unitv), ("MESSAGE", v)] = "" := by
      unfold msgOf
      rw [hlm]
      cases v <;> simp_all [JVal.isStr]
    simp only [decodeEntry, hts, hbv, huv, hm, hus, hok, if_true, hsl]

/-- Claim C9 witness: an entry whose MESSAGE is a byte array decodes to
a row with empty message and all other fields decoded normally. -/
theorem c9_nonstring_message_witness :
    (msgOf [("MESSAGE", JVal.jarr [JVal.jint 104])] = "")
    ∧ decodeEntry (fun _ => 0) [("__REALTIME_TIMESTAMP", JVal.jstr "1000000"),
        ("_BOOT_ID", JVal.jstr "abcdefgh12"), ("SYSLOG_IDENTIFIER", JVal.jstr "sshd"),
        ("MESSAGE", JVal.jarr [JVal.jint 104])] =
      some ⟨localDateStr (fun _ => 0) ((1000000 : Int).fdiv 1000000),
            localTimeStr (fun _ => 0) ((1000000 : Int).fdiv 1000000),
            JVal.jstr "abcdefgh", JVal.jstr "sshd", ""⟩ :=
  ⟨(c9_nonstring_message (fun _ => 0)).1 _ _ rfl rfl,
   (c9_nonstring_message (fun _ => 0)).2 _ _ _ _ 1000000 _ rfl rfl rfl rfl⟩

/-- Claim C6: in every run in which the upstream full read is attempted
and fails, nothing is written, the stamp is untouched and the process
exits non-zero: the state is returned unchanged with only the failed
fetch in the trace, for both exporters. -/
theorem c6_fetch_failed :
    (∀ (fs : JState) (today : String) (tz : Int → Int) (probe : ProbeResult),
      Op.fetch ∈ (journalRun fs today tz probe (Except.error ())).ops →
        (journalRun fs today tz probe (Except.error ())).exit = 1 ∧
        (journalRun fs today tz probe (Except.error ())).fs = fs ∧
        (journalRun fs today tz probe (Except.error ())).ops = [Op.fetch])
    ∧ (∀ (fs : CState) (md5hex : List Nat → String) (fetch : CargoFetch),
        (fetch = CargoFetch.fail ∨ fetch = CargoFetch.badJson) →
        COp.fetch ∈ (cargoRun fs md5hex fetch).ops →
          (cargoRun fs md5hex fetch).exit = 1 ∧
          (cargoRun fs md5hex fetch).fs = fs ∧
          (cargoRun fs md5hex fetch).ops = [COp.fetch]) := by
  constructor
  · intro fs today tz probe hmem
    cases probe with
    | fail => simp [journalRun] at hmem
    | malformed => simp [journalRun] at hmem
    | empty => exact ⟨rfl, rfl, rfl⟩
    | entry e =>
      by_cases hc : pyEqStr (cursorVal e) (fs.stamp.getD "") = true
      · simp [journalRun, hc] at hmem
      · rw [Bool.not_eq_true] at hc
        simp only [journalRun, hc, Bool.false_eq_true, if_false]
        exact ⟨rfl, rfl, rfl⟩
  · intro fs md5hex fetch hf hmem
    obtain ⟨lock, stamp, out⟩ := fs
    cases lock with
    | none => simp [cargoRun] at hmem
    | some bytes =>
      by_cases hgate : ((md5hex bytes == stamp.getD "") && out.isSome) = true
      · simp [cargoRun, hgate] at hmem
      · rcases hf with rfl | rfl
        · rw [Bool.not_eq_true] at hgate
          simp [cargoRun, hgate]
        · rw [Bool.not_eq_true] at hgate
          simp [cargoRun, hgate]

/-- Claim C6 witness: a journal run with empty probe and failing full
read, and a cargo run with a present lock, no stamp, no output and a
failing metadata subprocess. -/
theorem c6_fetch_failed_witness :
    ((journalRun ⟨none, []⟩ "2024-06-01" (fun _ => 0) ProbeResult.empty
        (Except.error ())).exit = 1 ∧
     (journalRun ⟨none, []⟩ "2024-06-01" (fun _ => 0) ProbeResult.empty
        (Except.error ())).fs = ⟨none, []⟩ ∧
     (journalRun ⟨none, []⟩ "2024-06-01" (fun _ => 0) ProbeResult.empty
        (Except.error ())).ops = [Op.fetch])
    ∧ ((cargoRun ⟨some [], none, none⟩ (fun _ => "h2") CargoFetch.fail).exit = 1 ∧
       (cargoRun ⟨some [], none, none⟩ (fun _ => "h2") CargoFetch.fail).fs =
         ⟨some [], none, none⟩ ∧
       (cargoRun ⟨some [], none, none⟩ (fun _ => "h2") CargoFetch.fail).ops =
         [COp.fetch]) :=
  ⟨c6_fetch_failed.1 ⟨none, []⟩ "2024-06-01" (fun _ => 0) ProbeResult.empty
      (by rw [show (journalRun ⟨none, []⟩ "2024-06-01" (fun _ => 0) ProbeResult.empty
          (Except.error ())).ops = [Op.fetch] from rfl]; exact List.mem_singleton.mpr rfl),
   c6_fetch_failed.2 ⟨some [], none, none⟩ (fun _ => "h2") CargoFetch.fail (Or.inl rfl)
      (by rw [show (cargoRun ⟨some [], none, none⟩ (fun _ => "h2") CargoFetch.fail).ops =
          [COp.fetch] from rfl]; exact List.mem_singleton.mpr rfl)⟩

theorem runBody_stamp (fs : JState) (today : String) (tz : Int → Int)
    (full : Except Unit (List RawLine)) (v : Option JVal) (s : String)
    (hmem : Op.writeStamp s ∈ (runBody fs today tz full v).ops) :
    (runBody fs today tz full v).exit = 0 ∧
    ∃ pre, (runBody fs today tz full v).ops = pre ++ [Op.writeStamp s] ∧
      ∀ t2, Op.writeStamp t2 ∉ pre := by
  cases full with
  | error u => simp [runBody] at hmem
  | ok lines =>
    simp only [runBody] at hmem ⊢
    rcases List.mem_cons.mp hmem with h1 | h1
    · exact absurd h1 (by simp)
    · rcases List.mem_append.mp h1 with h2 | h2
      · obtain ⟨d, rs, hds⟩ := writeLoop_ops_part today _ _ _ h2
        simp at hds
      · obtain ⟨c, hc, hstep⟩ := stampStep_mem _ _ _ h2
        have hsc : s = c := Op.writeStamp.inj hc
        subst hsc
        rw [hstep]
        refine ⟨rfl,
          Op.fetch :: (writeLoop today fs (groupRows (decodeLines tz lines))).2,
          by simp, ?_⟩
        intro t2 hin
        rcases List.mem_cons.mp hin with h3 | h3
        · simp at h3
        · obtain ⟨d, rs, hds⟩ := writeLoop_ops_part today _ _ _ h3
          simp at hds

/-- Claim C1: for both exporters, in every run whose trace contains a
stamp write, the run succeeded (exit 0) and the stamp write is the very
last operation, all partition and snapshot writes preceding it; since a
failing operation ends the run at that point with only a prefix of the
trace performed, a run with any failed write never updates the stamp. -/
theorem c1_stamp_last :
    (∀ (fs : JState) (today : String) (tz : Int → Int) (probe : ProbeResult)
        (full : Except Unit (List RawLine)) (s : String),
      Op.writeStamp s ∈ (journalRun fs today tz probe full).ops →
        (journalRun fs today tz probe full).exit = 0 ∧
        ∃ pre, (journalRun fs today tz probe full).ops = pre ++ [Op.writeStamp s] ∧
          ∀ t2, Op.writeStamp t2 ∉ pre)
    ∧ (∀ (fs : CState) (md5hex : List Nat → String) (fetch : CargoFetch) (s : String),
      COp.writeStamp s ∈ (cargoRun fs md5hex fetch).ops →
        (cargoRun fs md5hex fetch).exit = 0 ∧
        ∃ pre, (cargoRun fs md5hex fetch).ops = pre ++ [COp.writeStamp s] ∧
          ∀ t2, COp.writeStamp t2 ∉ pre) := by
  constructor
  · intro fs today tz probe full s hmem
    cases probe with
    | fail => simp [journalRun] at hmem
    | malformed => simp [journalRun] at hmem
    | empty => exact runBody_stamp _ _ _ _ _ _ hmem
    | entry e =>
      by_cases hc : pyEqStr (cursorVal e) (fs.stamp.getD "") = true
      · simp [journalRun, hc] at hmem
      · rw [Bool.not_eq_true] at hc
        simp only [journalRun, hc, Bool.false_eq_true, if_false] at hmem ⊢
        exact runBody_stamp _ _ _ _ _ _ hmem
  · intro fs md5hex fetch s hmem
    obtain ⟨lock, stamp, out⟩ := fs
    cases lock with
    | none => simp [cargoRun] at hmem
    | some bytes =>
      by_cases hgate : ((md5hex bytes == stamp.getD "") && out.isSome) = true
      · simp [cargoRun, hgate] at hmem
      · rw [Bool.not_eq_true] at hgate
        cases fetch with
        | fail => simp [cargoRun, hgate] at hmem
        | badJson => simp [cargoRun, hgate] at hmem
        | doc meta =>
          simp only [cargoRun, hgate, Bool.false_eq_true, if_false] at hmem ⊢
          cases hj : jget meta "packages" (.jarr []) with
          | none => simp [hj] at hmem
          | some pkgsv =>
            cases hi : pyIter pkgsv with
            | none => simp [hj, hi] at hmem
            | some pkgs =>
              cases hpa : projectAll pkgs with
              | none => simp [hj, hi, hpa] at hmem
              | some rows =>
                simp only [hj, hi, hpa] at hmem ⊢
                simp at hmem
                subst hmem
                refine ⟨by trivial, [COp.fetch, COp.writeOut rows], by simp, ?_⟩
                intro t2 hin
                simp at hin

/-- Claim C1 witness: a journal run that advances the cursor from c1 to
c2 over an empty dump, and a cargo run over an empty package list. -/
theorem c1_stamp_last_witness :
    ((journalRun ⟨some "c1", []⟩ "2024-06-01" (fun _ => 0)
        (ProbeResult.entry [("__CURSOR", JVal.jstr "c2")]) (Except.ok [])).exit = 0 ∧
     ∃ pre, (journalRun ⟨some "c1", []⟩ "2024-06-01" (fun _ => 0)
        (ProbeResult.entry [("__CURSOR", JVal.jstr "c2")]) (Except.ok [])).ops =
          pre ++ [Op.writeStamp "c2"] ∧ ∀ t2, Op.writeStamp t2 ∉ pre)
    ∧ ((cargoRun ⟨some [1], none, none⟩ (fun _ => "h3")
        (.doc (.jobj [("packages", .jarr [])]))).exit = 0 ∧
       ∃ pre, (cargoRun ⟨some [1], none, none⟩ (fun _ => "h3")
        (.doc (.jobj [("packages", .jarr [])]))).ops =
          pre ++ [COp.writeStamp "h3"] ∧ ∀ t2, COp.writeStamp t2 ∉ pre) :=
  ⟨c1_stamp_last.1 ⟨some "c1", []⟩ "2024-06-01" (fun _ => 0)
      (ProbeResult.entry [("__CURSOR", JVal.jstr "c2")]) (Except.ok []) "c2"
      (by rw [show (journalRun ⟨some "c1", []⟩ "2024-06-01" (fun _ => 0)
            (ProbeResult.entry [("__CURSOR", JVal.jstr "c2")]) (Except.ok [])).ops =
          [Op.fetch, Op.writeStamp "c2"] from rfl]; simp),
   c1_stamp_last.2 ⟨some [1], none, none⟩ (fun _ => "h3")
      (.doc (.jobj [("packages", .jarr [])])) "h3"
      (by rw [show (cargoRun ⟨some [1], none, none⟩ (fun _ => "h3")
            (.doc (.jobj [("packages", .jarr [])]))).ops =
          [COp.fetch, COp.writeOut [], COp.writeStamp "h3"] from rfl]; simp)⟩

/-- Claim C3: in a journal run that passes the gate, every partition of
the grouped batch is handled by the policy: a partition keyed today is
always (re)written regardless of a pre-existing file; a partition keyed
another date is written exactly when its file is missing; and an
existing file for a non-today date keeps its old content untouched, with
no write operation for that key in the trace. -/
theorem c3_partition_policy (fs : JState) (today : String) (tz : Int → Int)
    (probe : ProbeResult) (lines : List RawLine)
    (hp : proceedsB probe (fs.stamp.getD "") = true)
    (d : String) (rs : List Row)
    (hmem : (d, rs) ∈ groupRows (decodeLines tz lines)) :
    (d = today →
      lookupPart (journalRun fs today tz probe (Except.ok lines)).fs.parts d = some rs ∧
      Op.writePart d rs ∈ (journalRun fs today tz probe (Except.ok lines)).ops)
    ∧ (d ≠ today → lookupPart fs.parts d = none →
      lookupPart (journalRun fs today tz probe (Except.ok lines)).fs.parts d = some rs ∧
      Op.writePart d rs ∈ (journalRun fs today tz probe (Except.ok lines)).ops)
    ∧ (d ≠ today → ∀ old, lookupPart fs.parts d = some old →
      lookupPart (journalRun fs today tz probe (Except.ok lines)).fs.parts d = some old ∧
      ∀ rs2, Op.writePart d rs2 ∉ (journalRun fs today tz probe (Except.ok lines)).ops) := by
  rw [journalRun_proceeds fs today tz probe (Except.ok lines) hp]
  simp only [runBody]
  have hnd := groupRows_nodup (decodeLines tz lines)
  obtain ⟨s1, s2, s3⟩ :=
    writeLoop_spec today (groupRows (decodeLines tz lines)) hnd d rs hmem fs
  have hparts := stampStep_parts
    (writeLoop today fs (groupRows (decodeLines tz lines))).1 (stampvOf probe)
  refine ⟨?_, ?_, ?_⟩
  · intro hd
    obtain ⟨ha, hb⟩ := s1 hd
    exact ⟨by rw [hparts]; exact ha,
      List.mem_cons_of_mem _ (List.mem_append_left _ hb)⟩
  · intro hd hn
    obtain ⟨ha, hb⟩ := s2 hd hn
    exact ⟨by rw [hparts]; exact ha,
      List.mem_cons_of_mem _ (List.mem_append_left _ hb)⟩
  · intro hd old hold
    obtain ⟨ha, hb⟩ := s3 hd old hold
    refine ⟨by rw [hparts]; exact ha, ?_⟩
    intro rs2 hin
    rcases List.mem_cons.mp hin with h1 | h1
    · simp at h1
    · rcases List.mem_append.mp h1 with h2 | h2
      · exact hb rs2 h2
      · obtain ⟨c, hc, _⟩ := stampStep_mem _ _ _ h2
        simp at hc

/-- Claim C3 witness: a gate-passing run with empty state whose single
line groups into the open partition of the day, instantiating the
policy conclusion. -/
theorem c3_partition_policy_witness :
    (("1970-01-01" : String) = "1970-01-01" →
      lookupPart (journalRun ⟨none, []⟩ "1970-01-01" (fun _ => 0) ProbeResult.empty
        (Except.ok [RawLine.obj [("__REALTIME_TIMESTAMP", JVal.jint 0)]])).fs.parts
        "1970-01-01" =
        some [⟨"1970-01-01", "00:00:00", JVal.jstr "", JVal.jstr "", ""⟩] ∧
      Op.writePart "1970-01-01" [⟨"1970-01-01", "00:00:00", JVal.jstr "", JVal.jstr "", ""⟩] ∈
        (journalRun ⟨none, []⟩ "1970-01-01" (fun _ => 0) ProbeResult.empty
          (Except.ok [RawLine.obj [("__REALTIME_TIMESTAMP", JVal.jint 0)]])).ops)
    ∧ (("1970-01-01" : String) ≠ "1970-01-01" →
        lookupPart (⟨none, []⟩ : JState).parts "1970-01-01" = none →
      lookupPart (journalRun ⟨none, []⟩ "1970-01-01" (fun _ => 0) ProbeResult.empty
        (Except.ok [RawLine.obj [("__REALTIME_TIMESTAMP", JVal.jint 0)]])).fs.parts
        "1970-01-01" =
        some [⟨"1970-01-01", "00:00:00", JVal.jstr "", JVal.jstr "", ""⟩] ∧
      Op.writePart "1970-01-01" [⟨"1970-01-01", "00:00:00", JVal.jstr "", JVal.jstr "", ""⟩] ∈
        (journalRun ⟨none, []⟩ "1970-01-01" (fun _ => 0) ProbeResult.empty
          (Except.ok [RawLine.obj [("__REALTIME_TIMESTAMP", JVal.jint 0)]])).ops)
    ∧ (("1970-01-01" : String) ≠ "1970-01-01" → ∀ old,
        lookupPart (⟨none, []⟩ : JState).parts "1970-01-01" = some old →
      lookupPart (journalRun ⟨none, []⟩ "1970-01-01" (fun _ => 0) ProbeResult.empty
        (Except.ok [RawLine.obj [("__REALTIME_TIMESTAMP", JVal.jint 0)]])).fs.parts
        "1970-01-01" = some old ∧
      ∀ rs2, Op.writePart "1970-01-01" rs2 ∉
        (journalRun ⟨none, []⟩ "1970-01-01" (fun _ => 0) ProbeResult.empty
          (Except.ok [RawLine.obj [("__REALTIME_TIMESTAMP", JVal.jint 0)]])).ops) :=
  c3_partition_policy ⟨none, []⟩ "1970-01-01" (fun _ => 0) ProbeResult.empty
    [RawLine.obj [("__REALTIME_TIMESTAMP", JVal.jint 0)]] rfl
    "1970-01-01" [⟨"1970-01-01", "00:00:00", JVal.jstr "", JVal.jstr "", ""⟩]
    (by rw [show groupRows (decodeLines (fun _ => 0)
        [RawLine.obj [("__REALTIME_TIMESTAMP", JVal.jint 0)]]) =
        [("1970-01-01", [⟨"1970-01-01", "00:00:00", JVal.jstr "", JVal.jstr "", ""⟩])]
        from rfl]; exact List.mem_singleton.mpr rfl)

end TV
